import Mathlib

/-!
Verification of the BitBox wallet app's secure-channel / anti-klepto spec
against the repository's source. Pure Go functions are embedded as Lean
functions; protobuf messages as structures and inductives; components whose
code is not in the excerpt are modelled from the spec and marked as such.
-/

set_option maxHeartbeats 1000000

/-! ## Backend HTTP handlers (src/backend/handlers/handlers.go) -/

/-- The connection data held by the handlers: port, API token and dev-mode
flag, embedded from the Go struct `ConnectionData`. -/
structure ConnectionData where
  port : Int
  token : String
  devMode : Bool

/-- Embeds Go `NewConnectionData`: `devMode` is set iff the token is empty
(`len(token) == 0`); the port is stored but not consulted for `devMode`. -/
def NewConnectionData (port : Int) (token : String) : ConnectionData :=
  { port := port, token := token, devMode := token.length == 0 }

/-- Embeds Go `(connectionData *ConnectionData) isDev()`:
`port == -1 || token == ""`. -/
def ConnectionData.isDev (connectionData : ConnectionData) : Bool :=
  connectionData.port == -1 || connectionData.token == ""

/-- Embeds Go `isAPITokenValid`. The first component is the returned Bool;
the second is the HTTP status written by `http.Error` (`none` when nothing is
written). Go's `r.Header.Get("Authorization")` yields `""` for a missing
header, so the header is a plain `String`. -/
def isAPITokenValid (apiData : ConnectionData) (authHeader : String) :
    Bool × Option Nat :=
  if apiData.devMode then (true, none)
  else if authHeader.length = 0 then (false, some 401)
  else if authHeader.length ≠ 0 ∧ authHeader ≠ "Basic " ++ apiData.token then
    (false, some 401)
  else (true, none)

/-- Embeds Go `ensureAPITokenValid`: the wrapped handler runs iff
`isAPITokenValid` returned true. Result: whether the handler executed, plus
any status written. -/
def ensureAPITokenValid (apiData : ConnectionData) (authHeader : String) :
    Bool × Option Nat :=
  ((isAPITokenValid apiData authHeader).1, (isAPITokenValid apiData authHeader).2)

/-- Embeds the header-writing effect of Go `apiMiddleware`: always sets
Content-Type, and sets the dev CORS header iff `devMode` (the argument that
`getAPIRouter` fills with `connData.isDev()`). -/
def apiMiddlewareHeaders (devMode : Bool) : List (String × String) :=
  ("Content-Type", "text/json") ::
    (if devMode then [("Access-Control-Allow-Origin", "http://localhost:8080")] else [])

/-- Embeds the route wiring of `getAPIRouter`: the registered handler is
`ensureAPITokenValid(apiMiddleware(connData.isDev(), f), connData, log)`.
Returns the headers set when the handler runs, or the error status. -/
def serveAPIRequest (connData : ConnectionData) (authHeader : String) :
    Except Nat (List (String × String)) :=
  match ensureAPITokenValid connData authHeader with
  | (true, _) => .ok (apiMiddlewareHeaders connData.isDev)
  | (false, some s) => .error s
  | (false, none) => .error 0

/-! ## Relay channel persistence (src/unnamed/part_000, package relay) -/

/-- The relay `Channel` as used by the configuration code: identifier plus
the two symmetric keys that `newConfiguration` persists. -/
structure Channel where
  ChannelID : String
  EncryptionKey : List Nat
  AuthenticationKey : List Nat

/-- Modelled from the spec: `NewChannel` is not in the excerpt; per the
channel-persistence contract a remembered channel is reconstructed from its
identifier and symmetric keys, which is exactly what `configuration.channel`
passes to it. -/
def NewChannel (channelID : String) (encryptionKey : List Nat)
    (authenticationKey : List Nat) : Channel :=
  { ChannelID := channelID, EncryptionKey := encryptionKey,
    AuthenticationKey := authenticationKey }

/-- Embeds the Go `configuration` struct of package relay. -/
structure RelayConfiguration where
  Version : Int
  ChannelID : String
  EncryptionKey : List Nat
  AuthenticationKey : List Nat

/-- Embeds Go `newConfiguration`: records Version 1 plus the channel's
identifier and keys. -/
def newConfiguration (channel : Channel) : RelayConfiguration :=
  { Version := 1, ChannelID := channel.ChannelID,
    EncryptionKey := channel.EncryptionKey,
    AuthenticationKey := channel.AuthenticationKey }

/-- Embeds Go `(config *configuration) channel()`. -/
def RelayConfiguration.channel (config : RelayConfiguration) : Channel :=
  NewChannel config.ChannelID config.EncryptionKey config.AuthenticationKey

/-- Claim C5: persisting a relay channel and restoring it round-trips the
ChannelID, EncryptionKey and AuthenticationKey, and the persisted
configuration always records Version 1. -/
theorem relay_configuration_roundtrip (ch : Channel) :
    (newConfiguration ch).channel.ChannelID = ch.ChannelID ∧
    (newConfiguration ch).channel.EncryptionKey = ch.EncryptionKey ∧
    (newConfiguration ch).channel.AuthenticationKey = ch.AuthenticationKey ∧
    (newConfiguration ch).Version = 1 :=
  ⟨rfl, rfl, rfl, rfl⟩

/-- A string of the form `"Basic " ++ t` is never the empty header. -/
theorem basic_header_length_ne_zero (t : String) : ("Basic " ++ t).length ≠ 0 := by
  rw [String.length_append]
  have h6 : ("Basic ").length = 6 := by decide
  omega

/-- A string has length zero exactly when it is empty. -/
theorem string_length_eq_zero_iff (s : String) : s.length = 0 ↔ s = "" := by
  cases s with
  | mk data => simp [String.length, String.ext_iff]

/-- Claim C9: on a registered /api route, with devMode false the wrapped
handler executes iff the Authorization header equals `"Basic " ++ token`,
otherwise the response is 401 and the handler is not invoked; with devMode
true every request passes with no token check. -/
theorem api_token_gate (cd : ConnectionData) (auth : String) :
    (cd.devMode = false →
      (((ensureAPITokenValid cd auth).1 = true) ↔ auth = "Basic " ++ cd.token) ∧
      ((ensureAPITokenValid cd auth).1 = false →
        (ensureAPITokenValid cd auth).2 = some 401)) ∧
    (cd.devMode = true → ensureAPITokenValid cd auth = (true, none)) := by
  constructor
  · intro hdev
    by_cases h0 : auth.length = 0
    · have hne : auth ≠ "Basic " ++ cd.token := by
        intro h
        exact basic_header_length_ne_zero cd.token (h ▸ h0)
      constructor
      · simp [ensureAPITokenValid, isAPITokenValid, hdev, h0, hne]
      · intro _
        simp [ensureAPITokenValid, isAPITokenValid, hdev, h0]
    · by_cases hB : auth = "Basic " ++ cd.token
      · subst hB
        have h6 : ("Basic ").length = 6 := by decide
        constructor
        · simp [ensureAPITokenValid, isAPITokenValid, hdev, h6]
        · intro hfalse
          simp [ensureAPITokenValid, isAPITokenValid, hdev, h6] at hfalse
      · constructor
        · simp [ensureAPITokenValid, isAPITokenValid, hdev, h0, hB]
        · intro _
          simp [ensureAPITokenValid, isAPITokenValid, hdev, h0, hB]
  · intro hdev
    simp [ensureAPITokenValid, isAPITokenValid, hdev]

/-- Claim C9 witness: concrete connection data with token "secret". -/
theorem api_token_gate_witness :
    ((NewConnectionData 8082 "secret").devMode = false →
      (((ensureAPITokenValid (NewConnectionData 8082 "secret") "Basic secret").1 = true) ↔
        "Basic secret" = "Basic " ++ (NewConnectionData 8082 "secret").token) ∧
      (((ensureAPITokenValid (NewConnectionData 8082 "secret") "Basic secret").1 = false) →
        (ensureAPITokenValid (NewConnectionData 8082 "secret") "Basic secret").2 = some 401)) ∧
    ((NewConnectionData 8082 "secret").devMode = true →
      ensureAPITokenValid (NewConnectionData 8082 "secret") "Basic secret" = (true, none)) :=
  api_token_gate (NewConnectionData 8082 "secret") "Basic secret"

/-- Claim C10: `devMode` (set by `NewConnectionData`) and `isDev()` disagree:
`devMode` is true iff the token is empty, ignoring the port, while `isDev()`
is true iff port is -1 or the token is empty; at port -1 with a non-empty
token, API responses get the dev CORS header while token auth is enforced. -/
theorem devmode_isdev_disagree :
    (∀ (p : Int) (t : String),
      ((NewConnectionData p t).devMode = true ↔ t = "") ∧
      ((NewConnectionData p t).isDev = true ↔ (p = -1 ∨ t = ""))) ∧
    (NewConnectionData (-1) "secret").isDev ≠ (NewConnectionData (-1) "secret").devMode ∧
    serveAPIRequest (NewConnectionData (-1) "secret") "" = .error 401 ∧
    serveAPIRequest (NewConnectionData (-1) "secret") ("Basic " ++ "secret") =
      .ok [("Content-Type", "text/json"),
           ("Access-Control-Allow-Origin", "http://localhost:8080")] := by
  refine ⟨fun p t => ⟨?_, ?_⟩, ?_, ?_, ?_⟩
  · simp [NewConnectionData]
    exact string_length_eq_zero_iff t
  · simp [NewConnectionData, ConnectionData.isDev]
  · decide
  · rfl
  · rfl

/-! ## Protobuf command surface (src/unnamed/part_001, eth.proto) -/

/-- Byte strings of the protobuf `bytes` fields. -/
abbrev Bytes := List Nat

/-- Embeds proto enum `ETHCoin` (kept for backwards compatibility). -/
inductive ETHCoin where
  | eth
  | ropstenETH
  | rinkebyETH
deriving DecidableEq

/-- Embeds proto enum `ETHAddressCase`. -/
inductive ETHAddressCase where
  | mixed
  | upper
  | lower
deriving DecidableEq

/-- Embeds proto enum `ETHPubRequest.OutputType`. -/
inductive ETHPubOutputType where
  | address
  | xpub
deriving DecidableEq

/-- Modelled from the spec: `AntiKleptoHostNonceCommitment` lives in
antiklepto.proto, which is not in the excerpt; per §4.5 it carries the hash
commitment `H(r_host)` of the host's secret randomness. -/
structure AntiKleptoHostNonceCommitment where
  commitment : Bytes
deriving DecidableEq

/-- Modelled from the spec: `AntiKleptoSignerCommitment` is the device's
nonce commitment (a public point derived from its nonce contribution),
returned before the device sees `r_host`. -/
structure AntiKleptoSignerCommitment where
  commitment : Bytes
deriving DecidableEq

/-- Modelled from the spec: `AntiKleptoSignatureRequest` is the later,
separate message in which the host reveals `r_host` (protocol phase 3). -/
structure AntiKleptoSignatureRequest where
  host_nonce : Bytes
deriving DecidableEq

/-- Embeds proto message `ETHPubRequest`. -/
structure ETHPubRequest where
  keypath : List Nat
  coin : ETHCoin
  output_type : ETHPubOutputType
  display : Bool
  contract_address : Bytes
  chain_id : Nat
deriving DecidableEq

/-- Embeds proto message `ETHSignRequest` (legacy EIP-155 payload). The
only anti-klepto field is `host_nonce_commitment`; the request never
carries the host nonce itself. -/
structure ETHSignRequest where
  coin : ETHCoin
  keypath : List Nat
  nonce : Bytes
  gas_price : Bytes
  gas_limit : Bytes
  recipient : Bytes
  value : Bytes
  data : Bytes
  host_nonce_commitment : Option AntiKleptoHostNonceCommitment
  chain_id : Nat
  address_case : ETHAddressCase
deriving DecidableEq

/-- Embeds proto message `ETHSignEIP1559Request`. -/
structure ETHSignEIP1559Request where
  chain_id : Nat
  keypath : List Nat
  nonce : Bytes
  max_priority_fee_per_gas : Bytes
  max_fee_per_gas : Bytes
  gas_limit : Bytes
  recipient : Bytes
  value : Bytes
  data : Bytes
  host_nonce_commitment : Option AntiKleptoHostNonceCommitment
  address_case : ETHAddressCase
deriving DecidableEq

/-- Embeds proto message `ETHSignMessageRequest`. -/
structure ETHSignMessageRequest where
  coin : ETHCoin
  keypath : List Nat
  msg : Bytes
  host_nonce_commitment : Option AntiKleptoHostNonceCommitment
  chain_id : Nat
deriving DecidableEq

/-- Embeds proto enum `ETHSignTypedMessageRequest.DataType`. -/
inductive TypedDataType where
  | unknown
  | bytes
  | uint
  | int
  | bool
  | address
  | string
  | array
  | struct
deriving DecidableEq

/-- Embeds proto message `ETHSignTypedMessageRequest.MemberType` (recursive
through the optional `array_type`). -/
inductive TypedMemberType where
  | mk (type : TypedDataType) (size : Nat) (struct_name : String)
      (array_type : Option TypedMemberType)

/-- Embeds proto message `ETHSignTypedMessageRequest.Member`. -/
structure TypedMember where
  name : String
  type : Option TypedMemberType

/-- Embeds proto message `ETHSignTypedMessageRequest.StructType`. -/
structure TypedStructType where
  name : String
  members : List TypedMember

/-- Embeds proto message `ETHSignTypedMessageRequest`. -/
structure ETHSignTypedMessageRequest where
  chain_id : Nat
  keypath : List Nat
  types : List TypedStructType
  primary_type : String
  host_nonce_commitment : Option AntiKleptoHostNonceCommitment

/-- Embeds proto message `ETHTypedMessageValueResponse`. -/
structure ETHTypedMessageValueResponse where
  root_object : Nat
  path : List Nat
deriving DecidableEq

/-- Embeds proto message `ETHTypedMessageValueRequest`. -/
structure ETHTypedMessageValueRequest where
  value : Bytes
deriving DecidableEq

/-- Modelled from the spec: `PubResponse` comes from common.proto (not in
the excerpt); it carries the derived public key / address string. -/
structure PubResponse where
  pub : String
deriving DecidableEq

/-- Embeds proto message `ETHSignResponse`: the final 65-byte signature. -/
structure ETHSignResponse where
  signature : Bytes
deriving DecidableEq

/-- Embeds the proto `oneof request` of `ETHRequest`: the closed set of
request variants. The host nonce can only travel in the dedicated
`antiklepto_signature` variant. -/
inductive ETHRequest where
  | pub (r : ETHPubRequest)
  | sign (r : ETHSignRequest)
  | sign_msg (r : ETHSignMessageRequest)
  | antiklepto_signature (r : AntiKleptoSignatureRequest)
  | sign_typed_msg (r : ETHSignTypedMessageRequest)
  | typed_msg_value (r : ETHTypedMessageValueRequest)
  | sign_eip1559 (r : ETHSignEIP1559Request)

/-- Embeds the proto `oneof response` of `ETHResponse`: the closed set of
response variants, extended with an `unknown` case standing for a oneof tag
outside the closed set (what a misbehaving device could send). -/
inductive ETHResponse where
  | pub (r : PubResponse)
  | sign (r : ETHSignResponse)
  | antiklepto_signer_commitment (c : AntiKleptoSignerCommitment)
  | typed_msg_value (r : ETHTypedMessageValueResponse)
  | unknown (tag : Nat)
deriving DecidableEq

/-! ## Anti-klepto engine (modelled from the spec, §4.5) -/

/-- Errors surfaced by the anti-klepto engine and the command codec, from
the spec's error taxonomy (§7). -/
inductive ProtocolError where
  | commitmentOrderViolation
  | protocolViolation
  | signatureVerificationFailed
  | timeout
deriving DecidableEq

/-- The messages a signing session sends to the device, abstracted to the
anti-klepto content: the initial sign request carrying only the hash
commitment, and the later nonce-reveal request carrying `r_host`. -/
inductive HostMessage where
  | signRequest (commitment : Bytes)
  | nonceReveal (host_nonce : Bytes)
deriving DecidableEq

/-- Modelled from the spec: the anti-klepto engine's signing session driver
(the engine code is not in the excerpt; §4.5 gives the strict 3-phase
protocol). `hash` is the commitment hash `H`, `verify` the host-side
signature verification, both unspecified primitives per §9. Phase 1 sends
the sign request carrying `hash hostNonce`; only after the device's signer
commitment arrives does phase 3 send `hostNonce` itself; a final signature
observed before the signer commitment is a `commitmentOrderViolation`.
Returns the transcript of host messages and the session result. -/
def runAntiKleptoSession (hash : Bytes → Bytes) (verify : Bytes → Bool)
    (hostNonce : Bytes) (responses : List ETHResponse) :
    List HostMessage × Except ProtocolError Bytes :=
  let first : HostMessage := .signRequest (hash hostNonce)
  match responses with
  | [] => ([first], .error .timeout)
  | .antiklepto_signer_commitment _ :: rest =>
      let reveal : HostMessage := .nonceReveal hostNonce
      match rest with
      | [] => ([first, reveal], .error .timeout)
      | .sign s :: _ =>
          if verify s.signature then ([first, reveal], .ok s.signature)
          else ([first, reveal], .error .signatureVerificationFailed)
      | _ :: _ => ([first, reveal], .error .protocolViolation)
  | .sign _ :: _ => ([first], .error .commitmentOrderViolation)
  | _ :: _ => ([first], .error .protocolViolation)

/-- Claim C1: in every signing session, the transcript either is just the
initial sign request carrying the hash commitment `hash hostNonce`, or it
additionally contains the nonce reveal and then the device's signer
commitment was the first response received: `r_host` never travels before
the device's commitment, and only in the separate anti-klepto signature
request. -/
theorem antiklepto_nonce_withheld (hash : Bytes → Bytes) (verify : Bytes → Bool)
    (hostNonce : Bytes) (responses : List ETHResponse) :
    (runAntiKleptoSession hash verify hostNonce responses).1 =
        [HostMessage.signRequest (hash hostNonce)] ∨
    ((runAntiKleptoSession hash verify hostNonce responses).1 =
        [HostMessage.signRequest (hash hostNonce), HostMessage.nonceReveal hostNonce] ∧
      ∃ c rest, responses = ETHResponse.antiklepto_signer_commitment c :: rest) := by
  cases responses with
  | nil => left; rfl
  | cons r rest =>
    cases r with
    | pub r => left; rfl
    | sign r => left; rfl
    | typed_msg_value r => left; rfl
    | unknown t => left; rfl
    | antiklepto_signer_commitment c =>
      right
      refine ⟨?_, c, rest, rfl⟩
      cases rest with
      | nil => rfl
      | cons r2 rest2 =>
        cases r2 with
        | sign s =>
          by_cases hv : verify s.signature = true <;>
            simp [runAntiKleptoSession, hv]
        | pub r => rfl
        | antiklepto_signer_commitment c2 => rfl
        | typed_msg_value r => rfl
        | unknown t => rfl

/-- Claim C2: if the first device response of a signing session is a final
signature (before any signer commitment), the engine rejects the session
with `commitmentOrderViolation` and accepts no signature. -/
theorem antiklepto_order_enforced (hash : Bytes → Bytes) (verify : Bytes → Bool)
    (hostNonce : Bytes) (responses : List ETHResponse) (s : ETHSignResponse)
    (rest : List ETHResponse) (h : responses = ETHResponse.sign s :: rest) :
    (runAntiKleptoSession hash verify hostNonce responses).2 =
        .error ProtocolError.commitmentOrderViolation ∧
    ∀ sig, (runAntiKleptoSession hash verify hostNonce responses).2 ≠ .ok sig := by
  subst h
  exact ⟨rfl, fun sig hk => by simp [runAntiKleptoSession] at hk⟩

/-- Claim C2 witness: a device that answers a sign request immediately with
a signature is rejected. -/
theorem antiklepto_order_enforced_witness :
    (runAntiKleptoSession id (fun _ => true) [1]
        [ETHResponse.sign ⟨[2]⟩]).2 =
        .error ProtocolError.commitmentOrderViolation ∧
    ∀ sig, (runAntiKleptoSession id (fun _ => true) [1]
        [ETHResponse.sign ⟨[2]⟩]).2 ≠ .ok sig :=
  antiklepto_order_enforced id (fun _ => true) [1]
    [ETHResponse.sign ⟨[2]⟩] ⟨[2]⟩ [] rfl

/-! ## Command codec (spec §4.4; oneof kinds from eth.proto) -/

/-- The closed set of request kinds of the `ETHRequest` oneof. -/
inductive ETHRequestKind where
  | pub
  | sign
  | sign_msg
  | antiklepto_signature
  | sign_typed_msg
  | typed_msg_value
  | sign_eip1559
deriving DecidableEq

/-- The closed set of known response kinds of the `ETHResponse` oneof. -/
inductive ETHResponseKind where
  | pub
  | sign
  | antiklepto_signer_commitment
  | typed_msg_value
deriving DecidableEq

/-- The oneof kind of a request. -/
def ETHRequest.kind : ETHRequest → ETHRequestKind
  | .pub _ => .pub
  | .sign _ => .sign
  | .sign_msg _ => .sign_msg
  | .antiklepto_signature _ => .antiklepto_signature
  | .sign_typed_msg _ => .sign_typed_msg
  | .typed_msg_value _ => .typed_msg_value
  | .sign_eip1559 _ => .sign_eip1559

/-- The oneof kind of a response; `none` for a tag outside the closed set. -/
def ETHResponse.kind : ETHResponse → Option ETHResponseKind
  | .pub _ => some .pub
  | .sign _ => some .sign
  | .antiklepto_signer_commitment _ => some .antiklepto_signer_commitment
  | .typed_msg_value _ => some .typed_msg_value
  | .unknown _ => none

/-- Modelled from the spec: the single response variant corresponding to
each request kind (§4.4 "each request type has exactly one corresponding
response type"), following the §4.5 anti-klepto flow: an anti-klepto sign
request is answered by the signer commitment and the nonce reveal by the
final signature; the typed-message flow is answered by value requests. -/
def expectedResponseKind : ETHRequestKind → ETHResponseKind
  | .pub => .pub
  | .sign => .antiklepto_signer_commitment
  | .sign_msg => .antiklepto_signer_commitment
  | .antiklepto_signature => .sign
  | .sign_typed_msg => .typed_msg_value
  | .typed_msg_value => .antiklepto_signer_commitment
  | .sign_eip1559 => .antiklepto_signer_commitment

/-- Modelled from the spec: the codec's response decoder for an issued
request kind; a response whose kind is unknown or does not match the one
expected variant fails closed with `protocolViolation` (§4.4). -/
def decodeETHResponse (issued : ETHRequestKind) (resp : ETHResponse) :
    Except ProtocolError ETHResponse :=
  match ETHResponse.kind resp with
  | none => .error .protocolViolation
  | some k =>
      if k = expectedResponseKind issued then .ok resp
      else .error .protocolViolation

/-- Claim C6: for every issued request kind, the codec accepts exactly the
single corresponding response variant; a mismatched or unknown response
kind fails closed with `protocolViolation`, never a partial result. -/
theorem codec_fails_closed (issued : ETHRequestKind) (resp : ETHResponse) :
    (decodeETHResponse issued resp = .ok resp ↔
      ETHResponse.kind resp = some (expectedResponseKind issued)) ∧
    (decodeETHResponse issued resp = .ok resp ∨
      decodeETHResponse issued resp = .error .protocolViolation) ∧
    (∀ t, decodeETHResponse issued (.unknown t) =
      .error ProtocolError.protocolViolation) := by
  refine ⟨?_, ?_, fun t => rfl⟩
  · cases resp <;>
      simp [decodeETHResponse, ETHResponse.kind]
  · cases resp <;> simp [decodeETHResponse, ETHResponse.kind] <;>
      exact Classical.em _

/-! ## Secure channel receive counter (modelled from the spec, §4.2) -/

/-- Result of processing one encrypted frame on the secure channel. -/
inductive RecvResult where
  | accepted
  | replayOrDesyncError
deriving DecidableEq

/-- Modelled from the spec: the receive side of a secure channel (the
channel code is not under the excerpt): the last accepted receive counter
and whether the channel has been failed (forcing re-pairing). -/
structure SecureChannelState where
  lastRecvCounter : Nat
  failed : Bool
deriving DecidableEq

/-- Modelled from the spec: receiving an encrypted frame whose counter is
not exactly `last+1` fails the channel with the replay/desync error; a
failed channel accepts nothing until re-paired (hard fail, no silent
retry). -/
def recvFrame (st : SecureChannelState) (counter : Nat) :
    SecureChannelState × RecvResult :=
  if st.failed = false ∧ counter = st.lastRecvCounter + 1 then
    ({ lastRecvCounter := counter, failed := false }, .accepted)
  else
    ({ st with failed := true }, .replayOrDesyncError)

/-- Claim C3: a frame counter that is not exactly `last+1` fails the
channel with the replay/desync error; two valid frames with non-increasing
counters raise it; and a failed channel is not silently retried: every
further receive errors as well. -/
theorem channel_counter_monotone (st : SecureChannelState) (c c2 : Nat)
    (hok : st.failed = false) :
    (c ≠ st.lastRecvCounter + 1 →
      recvFrame st c = ({ st with failed := true }, .replayOrDesyncError)) ∧
    ((recvFrame st c).2 = .accepted → c2 ≤ c →
      (recvFrame (recvFrame st c).1 c2).2 = .replayOrDesyncError) ∧
    (∀ d, (recvFrame { st with failed := true } d).2 = .replayOrDesyncError) := by
  refine ⟨fun hne => ?_, fun hacc hle => ?_, fun d => ?_⟩
  · simp [recvFrame, hne]
  · have hc : c = st.lastRecvCounter + 1 := by
      by_contra hne
      simp [recvFrame, hne] at hacc
    subst hc
    have h2 : c2 ≠ st.lastRecvCounter + 1 + 1 := by omega
    simp [recvFrame, hok, h2]
  · simp [recvFrame]

/-- Claim C3 witness: a fresh channel that accepts counter 1 and then sees
counter 1 again raises the replay/desync error. -/
theorem channel_counter_monotone_witness :
    ((1 : Nat) ≠ (0 : Nat) + 1 →
      recvFrame ⟨0, false⟩ 1 = (⟨0, true⟩, .replayOrDesyncError)) ∧
    ((recvFrame ⟨0, false⟩ 1).2 = .accepted → 1 ≤ 1 →
      (recvFrame (recvFrame ⟨0, false⟩ 1).1 1).2 = .replayOrDesyncError) ∧
    (∀ d, (recvFrame { lastRecvCounter := 0, failed := true } d).2 =
      .replayOrDesyncError) :=
  channel_counter_monotone ⟨0, false⟩ 1 1 rfl

/-! ## Command multiplexer (modelled from the spec, §4.3) -/

/-- Result of one `invoke` on the multiplexer. -/
inductive InvokeResult (ρ : Type) where
  | ok (resp : ρ)
  | timeout
  | channelDegraded
deriving DecidableEq

/-- Modelled from the spec: multiplexer-visible channel state: the degraded
flag set on timeout, and the log of requests actually sent on the wire. -/
structure MuxState (α : Type) where
  degraded : Bool
  sentRequests : List α
deriving DecidableEq

/-- Modelled from the spec: one `invoke` call. A degraded channel fails
fast with nothing sent; otherwise the request goes on the wire and the
device either responds (`some`) or never does, which is a timeout that
marks the channel degraded until re-established. -/
def invoke {α ρ : Type} (device : α → Option ρ) (st : MuxState α) (req : α) :
    MuxState α × InvokeResult ρ :=
  if st.degraded then (st, .channelDegraded)
  else
    match device req with
    | some r => ({ st with sentRequests := st.sentRequests ++ [req] }, .ok r)
    | none => ({ degraded := true,
                 sentRequests := st.sentRequests ++ [req] }, .timeout)

/-- Modelled from the spec: re-pairing re-establishes the channel. -/
def rePair {α : Type} (st : MuxState α) : MuxState α :=
  { st with degraded := false }

/-- A sequence of invokes, threading the multiplexer state. -/
def invokeMany {α ρ : Type} (device : α → Option ρ) (st : MuxState α) :
    List α → MuxState α × List (InvokeResult ρ)
  | [] => (st, [])
  | req :: reqs =>
      let step := invoke device st req
      let rest := invokeMany device step.1 reqs
      (rest.1, step.2 :: rest.2)

/-- On a degraded channel every invoke fails fast and sends nothing. -/
theorem invokeMany_degraded {α ρ : Type} (device : α → Option ρ)
    (st : MuxState α) (reqs : List α) (hdeg : st.degraded = true) :
    invokeMany device st reqs =
      (st, reqs.map fun _ => InvokeResult.channelDegraded) := by
  induction reqs with
  | nil => rfl
  | cons q qs ih => simp [invokeMany, invoke, hdeg, ih]

/-- Claim C7: once an invoke times out, the channel is degraded and every
subsequent invoke on the handle fails fast with the channel-degraded error
and sends no request, until re-pairing clears the flag. -/
theorem invoke_timeout_degrades {α ρ : Type} (device : α → Option ρ)
    (st : MuxState α) (req : α)
    (htimeout : (invoke device st req).2 = .timeout) :
    (invoke device st req).1.degraded = true ∧
    (∀ (device2 : α → Option ρ) (reqs : List α),
      invokeMany device2 (invoke device st req).1 reqs =
        ((invoke device st req).1,
          reqs.map fun _ => InvokeResult.channelDegraded)) ∧
    (rePair (invoke device st req).1).degraded = false := by
  have hdeg : (invoke device st req).1.degraded = true := by
    by_cases hst : st.degraded = true
    · simp [invoke, hst] at htimeout
    · simp only [Bool.not_eq_true] at hst
      cases hdev : device req with
      | some r => simp [invoke, hst, hdev] at htimeout
      | none => simp [invoke, hst, hdev]
  exact ⟨hdeg, fun device2 reqs => invokeMany_degraded device2 _ reqs hdeg,
    by simp [rePair]⟩

/-- Claim C7 witness: a device that never responds; the first invoke times
out and two further invokes both fail fast with nothing sent. -/
theorem invoke_timeout_degrades_witness :
    (invoke (fun _ : Nat => (none : Option Nat)) ⟨false, []⟩ 7).1.degraded = true ∧
    (∀ (device2 : Nat → Option Nat) (reqs : List Nat),
      invokeMany device2 (invoke (fun _ : Nat => (none : Option Nat)) ⟨false, []⟩ 7).1 reqs =
        ((invoke (fun _ : Nat => (none : Option Nat)) ⟨false, []⟩ 7).1,
          reqs.map fun _ => InvokeResult.channelDegraded)) ∧
    (rePair (invoke (fun _ : Nat => (none : Option Nat)) ⟨false, []⟩ 7).1).degraded = false :=
  invoke_timeout_degrades (fun _ => none) ⟨false, []⟩ 7 rfl

/-! ## Device state machine gating (modelled from the spec, §4.6) -/

/-- Modelled from the spec: the device state machine's states. -/
inductive DeviceState where
  | disconnected
  | connectedUnpaired
  | pairedLocked
  | unlocked
  | busy
deriving DecidableEq

/-- Recoverable gate errors returned without touching the wire. -/
inductive GateError where
  | deviceLocked
deriving DecidableEq

/-- Whether a request is a signing command (the category gated while the
device is locked): all the sign variants and the anti-klepto sub-steps of a
signing operation. -/
def isSigningCommand : ETHRequest → Bool
  | .sign _ => true
  | .sign_msg _ => true
  | .sign_typed_msg _ => true
  | .sign_eip1559 _ => true
  | .antiklepto_signature _ => true
  | .typed_msg_value _ => true
  | .pub _ => false

/-- The wire-relevant channel state a command submission can change: the
send counter used for AEAD framing and the log of commands actually sent. -/
structure GatedChannelState where
  sendCounter : Nat
  sentLog : List ETHRequest

/-- Modelled from the spec: command submission through the state-machine
gate. A signing command while the device is `pairedLocked` fails fast with
`deviceLocked` and nothing is sent; otherwise the command goes on the wire,
bumping the send counter. -/
def submitCommand (ds : DeviceState) (ch : GatedChannelState)
    (cmd : ETHRequest) : GatedChannelState × Option GateError :=
  if isSigningCommand cmd = true ∧ ds = .pairedLocked then (ch, some .deviceLocked)
  else
    ({ sendCounter := ch.sendCounter + 1, sentLog := ch.sentLog ++ [cmd] }, none)

/-- Claim C8: a signing command issued while the device is locked fails
fast with `deviceLocked`, is not sent over the wire, and leaves the channel
state, including its send counter, unchanged. -/
theorem locked_gate_blocks_signing (ds : DeviceState) (ch : GatedChannelState)
    (cmd : ETHRequest) (hlocked : ds = .pairedLocked)
    (hsigning : isSigningCommand cmd = true) :
    (submitCommand ds ch cmd).2 = some .deviceLocked ∧
    (submitCommand ds ch cmd).1.sendCounter = ch.sendCounter ∧
    (submitCommand ds ch cmd).1.sentLog = ch.sentLog := by
  subst hlocked
  refine ⟨?_, ?_, ?_⟩ <;> simp [submitCommand, hsigning]

/-- Claim C8 witness: a concrete legacy sign request against a locked
device is rejected with the channel untouched. -/
theorem locked_gate_blocks_signing_witness :
    (submitCommand .pairedLocked ⟨5, []⟩
        (ETHRequest.sign ⟨.eth, [], [], [], [], [], [], [], none, 1, .mixed⟩)).2 =
      some .deviceLocked ∧
    (submitCommand .pairedLocked ⟨5, []⟩
        (ETHRequest.sign ⟨.eth, [], [], [], [], [], [], [], none, 1, .mixed⟩)).1.sendCounter =
      (5 : Nat) ∧
    (submitCommand .pairedLocked ⟨5, []⟩
        (ETHRequest.sign ⟨.eth, [], [], [], [], [], [], [], none, 1, .mixed⟩)).1.sentLog =
      ([] : List ETHRequest) :=
  locked_gate_blocks_signing .pairedLocked ⟨5, []⟩
    (ETHRequest.sign ⟨.eth, [], [], [], [], [], [], [], none, 1, .mixed⟩) rfl rfl

/-! ## Transport framing (modelled from the spec, §4.1 and §6) -/

/-- Modelled from the spec: the link's fixed frame size (the framing code
is not under the excerpt; a USB-HID style 64-byte frame). -/
def frameSize : Nat := 64

/-- Every frame starts with a channel/command tag byte followed by a 4-byte
slot holding the total length (first frame) or the sequence counter. -/
def frameHeaderSize : Nat := 5

/-- Payload bytes carried per frame. -/
def maxPayloadPerFrame : Nat := frameSize - frameHeaderSize

/-- Largest representable payload: the 4-byte total-length prefix bounds
payloads at `2^32 - 1` bytes. -/
def maxPayload : Nat := 2 ^ 32 - 1

/-- The channel/command tag byte carried by every frame. -/
def cmdTag : Nat := 128

/-- Big-endian 4-byte encoding of a 32-bit value. -/
def be32 (n : Nat) : List Nat :=
  [n / 2 ^ 24 % 256, n / 2 ^ 16 % 256, n / 2 ^ 8 % 256, n % 256]

/-- Decodes a big-endian byte list. -/
def decodeBe32 (bytes : List Nat) : Nat :=
  bytes.foldl (fun a b => a * 256 + b) 0

/-- Splits a payload into chunks of `maxPayloadPerFrame` bytes, the last
chunk zero-padded to full size; the empty payload yields no chunks. -/
def chunkPad : List Nat → List (List Nat)
  | [] => []
  | a :: l =>
      ((a :: l).take maxPayloadPerFrame ++
          List.replicate (maxPayloadPerFrame - (a :: l).length) 0) ::
        chunkPad ((a :: l).drop maxPayloadPerFrame)
  termination_by l => l.length
  decreasing_by
    simp [maxPayloadPerFrame, frameSize, frameHeaderSize]
    omega

/-- Continuation frames: tag byte, 4-byte running sequence counter, chunk. -/
def contFrames : Nat → List (List Nat) → List (List Nat)
  | _, [] => []
  | i, c :: cs => (cmdTag :: (be32 i ++ c)) :: contFrames (i + 1) cs

/-- Modelled from the spec: the send side of transport framing. The first
frame carries the 4-byte total length; continuation frames carry the
running sequence counter; all frames are padded to `frameSize`. -/
def mkFrames (payload : List Nat) : List (List Nat) :=
  match chunkPad payload with
  | [] => []
  | c0 :: rest => (cmdTag :: (be32 payload.length ++ c0)) :: contFrames 1 rest

/-- Checks the running sequence counters of the continuation frames. -/
def checkSeq : Nat → List (List Nat) → Bool
  | _, [] => true
  | i, f :: fs => ((f.drop 1).take 4 == be32 i) && checkSeq (i + 1) fs

/-- Modelled from the spec: the receive side of transport framing:
validates frame sizes and sequence counters, reads the total length from
the first frame, rejects lengths beyond `maxPayload`, and reassembles the
payload, discarding the zero padding. `none` is the framing error. -/
def reassemble (frames : List (List Nat)) : Option (List Nat) :=
  match frames with
  | [] => some []
  | f0 :: rest =>
      if (∀ f ∈ f0 :: rest, f.length = frameSize) ∧ f0.headI = cmdTag ∧
          checkSeq 1 rest = true then
        if decodeBe32 ((f0.drop 1).take 4) ≤ maxPayload ∧
            decodeBe32 ((f0.drop 1).take 4) ≤
              (((f0 :: rest).map (fun f => f.drop frameHeaderSize)).flatten).length then
          some ((((f0 :: rest).map (fun f => f.drop frameHeaderSize)).flatten).take
            (decodeBe32 ((f0.drop 1).take 4)))
        else none
      else none

/-- Total padding added by framing a payload. -/
def padLen (payload : List Nat) : Nat :=
  maxPayloadPerFrame * (chunkPad payload).length - payload.length

/-- Every chunk produced by `chunkPad` is exactly one frame payload long. -/
theorem chunkPad_mem_length (l : List Nat) :
    ∀ c ∈ chunkPad l, c.length = maxPayloadPerFrame := by
  induction l using chunkPad.induct with
  | case1 => simp [chunkPad]
  | case2 a l ih =>
    intro c hc
    rw [chunkPad] at hc
    rcases List.mem_cons.1 hc with h | h
    · subst h
      have hm : maxPayloadPerFrame = 59 := by decide
      simp [List.length_append, List.length_take, List.length_replicate, hm]
      omega
    · exact ih c h

/-- The chunks jointly cover the payload. -/
theorem chunkPad_total (l : List Nat) :
    l.length ≤ maxPayloadPerFrame * (chunkPad l).length := by
  induction l using chunkPad.induct with
  | case1 => simp [chunkPad]
  | case2 a l ih =>
    have hm : maxPayloadPerFrame = 59 := by decide
    rw [chunkPad]
    simp only [List.length_cons, List.length_drop, hm] at ih ⊢
    omega


/-- The empty payload produces no chunks and no padding. -/
theorem padLen_nil : padLen [] = 0 := by
  simp [padLen, chunkPad]

/-- A non-empty chunkPad result is non-empty. -/
theorem chunkPad_ne_nil (l : List Nat) (h : l ≠ []) : chunkPad l ≠ [] := by
  cases l with
  | nil => exact absurd rfl h
  | cons a l => rw [chunkPad]; simp

/-- Unfolds the padding of a non-empty payload into the head chunk's
padding plus the padding of the remainder. -/
theorem padLen_cons (a : Nat) (l : List Nat) :
    padLen (a :: l) = (maxPayloadPerFrame - (a :: l).length) +
      padLen ((a :: l).drop maxPayloadPerFrame) := by
  have hm : maxPayloadPerFrame = 59 := by decide
  have hcons : chunkPad (a :: l) =
      ((a :: l).take maxPayloadPerFrame ++
        List.replicate (maxPayloadPerFrame - (a :: l).length) 0) ::
      chunkPad ((a :: l).drop maxPayloadPerFrame) := by rw [chunkPad]
  set t := (a :: l).drop maxPayloadPerFrame with ht
  have hlt : t.length = (a :: l).length - maxPayloadPerFrame := by
    rw [ht, List.length_drop]
  have htot := chunkPad_total t
  have hA : (a :: l).length = l.length + 1 := rfl
  simp only [padLen, hcons, List.length_cons]
  rw [hm] at hlt htot ⊢
  omega

/-- The number of chunks is the ceiling of payload length over the
per-frame payload size. -/
theorem chunkPad_length (l : List Nat) :
    (chunkPad l).length =
      (l.length + (maxPayloadPerFrame - 1)) / maxPayloadPerFrame := by
  induction l using chunkPad.induct with
  | case1 => rw [chunkPad]; decide
  | case2 a l ih =>
    have hm : maxPayloadPerFrame = 59 := by decide
    rw [chunkPad]
    set t := (a :: l).drop maxPayloadPerFrame with ht
    have hlt : t.length = (a :: l).length - maxPayloadPerFrame := by
      rw [ht, List.length_drop]
    have hA : (a :: l).length = l.length + 1 := rfl
    simp only [List.length_cons]
    rw [ih, hm] at *
    omega

/-- Concatenating the chunks gives the payload followed by the padding. -/
theorem chunkPad_flatten (l : List Nat) :
    (chunkPad l).flatten = l ++ List.replicate (padLen l) 0 := by
  induction l using chunkPad.induct with
  | case1 => rw [chunkPad]; simp [padLen_nil]
  | case2 a l ih =>
    have hm : maxPayloadPerFrame = 59 := by decide
    have hcons : chunkPad (a :: l) =
        ((a :: l).take maxPayloadPerFrame ++
          List.replicate (maxPayloadPerFrame - (a :: l).length) 0) ::
        chunkPad ((a :: l).drop maxPayloadPerFrame) := by rw [chunkPad]
    have hpad := padLen_cons a l
    set t := (a :: l).drop maxPayloadPerFrame with ht
    rw [hcons]
    simp only [List.flatten_cons, ih, hpad]
    by_cases hle : (a :: l).length ≤ maxPayloadPerFrame
    · have ht0 : t = [] := by rw [ht]; exact List.drop_eq_nil_of_le hle
      have htake : (a :: l).take maxPayloadPerFrame = a :: l :=
        List.take_of_length_le hle
      rw [htake, ht0, padLen_nil]
      simp [List.append_assoc]
    · push_neg at hle
      have h0 : maxPayloadPerFrame - (a :: l).length = 0 := by omega
      rw [h0]
      simp only [List.replicate_zero, List.append_nil, Nat.zero_add]
      rw [ht, ← List.append_assoc, List.take_append_drop]

/-- The last chunk is the payload's final bytes followed by all of the
padding. -/
theorem chunkPad_getLast (l : List Nat) (h : l ≠ []) :
    ∃ r : List Nat,
      (chunkPad l).getLast? = some (r ++ List.replicate (padLen l) 0) ∧
      r.length + padLen l = maxPayloadPerFrame := by
  induction l using chunkPad.induct with
  | case1 => exact absurd rfl h
  | case2 a l ih =>
    have hm : maxPayloadPerFrame = 59 := by decide
    have hcons : chunkPad (a :: l) =
        ((a :: l).take maxPayloadPerFrame ++
          List.replicate (maxPayloadPerFrame - (a :: l).length) 0) ::
        chunkPad ((a :: l).drop maxPayloadPerFrame) := by rw [chunkPad]
    have hpad := padLen_cons a l
    have hA : (a :: l).length = l.length + 1 := rfl
    set t := (a :: l).drop maxPayloadPerFrame with ht
    by_cases hle : (a :: l).length ≤ maxPayloadPerFrame
    · have ht0 : t = [] := by rw [ht]; exact List.drop_eq_nil_of_le hle
      have htake : (a :: l).take maxPayloadPerFrame = a :: l :=
        List.take_of_length_le hle
      have hp : padLen (a :: l) = maxPayloadPerFrame - (a :: l).length := by
        rw [hpad, ht0, padLen_nil]
        omega
      refine ⟨a :: l, ?_, ?_⟩
      · rw [hcons, ht0, htake, hp]
        simp [chunkPad]
      · rw [hp]
        omega
    · push_neg at hle
      have htne : t ≠ [] := by
        intro hnil
        have hlen : t.length = (a :: l).length - maxPayloadPerFrame := by
          rw [ht, List.length_drop]
        rw [hnil] at hlen
        simp at hlen
        omega
      have h0 : maxPayloadPerFrame - (a :: l).length = 0 := by omega
      have hp : padLen (a :: l) = padLen t := by
        rw [hpad, h0, Nat.zero_add]
      obtain ⟨r, hr1, hr2⟩ := ih htne
      refine ⟨r, ?_, ?_⟩
      · rw [hcons]
        cases hxs : chunkPad t with
        | nil => exact absurd hxs (chunkPad_ne_nil t htne)
        | cons y ys =>
          rw [hxs] at hr1
          rw [List.getLast?_cons_cons, hr1, hp]
      · rw [hp]
        exact hr2

/-- The big-endian length prefix is 4 bytes. -/
theorem be32_length (n : Nat) : (be32 n).length = 4 := rfl

/-- Decoding inverts encoding for 32-bit values. -/
theorem decodeBe32_be32 (n : Nat) (h : n < 2 ^ 32) :
    decodeBe32 (be32 n) = n := by
  simp [be32, decodeBe32, List.foldl]
  omega

/-- Taking 4 bytes off a prefixed list recovers the prefix. -/
theorem take_four_be32 (n : Nat) (c : List Nat) :
    (be32 n ++ c).take 4 = be32 n := by
  rw [show (4 : Nat) = (be32 n).length from rfl, List.take_left]

/-- Dropping the 4 prefix bytes recovers the remainder. -/
theorem drop_four_be32 (n : Nat) (c : List Nat) :
    (be32 n ++ c).drop 4 = c := by
  rw [show (4 : Nat) = (be32 n).length from rfl, List.drop_left]

/-- Continuation frames are one per chunk. -/
theorem contFrames_length (cs : List (List Nat)) :
    ∀ i, (contFrames i cs).length = cs.length := by
  induction cs with
  | nil => intro i; rfl
  | cons c cs ih => intro i; simp [contFrames, ih]

/-- Stripping the headers of the continuation frames recovers the chunks. -/
theorem contFrames_map_drop (cs : List (List Nat)) :
    ∀ i, (contFrames i cs).map (fun f => f.drop frameHeaderSize) = cs := by
  induction cs with
  | nil => intro i; rfl
  | cons c cs ih =>
    intro i
    simp only [contFrames, List.map_cons, ih]
    congr 1

/-- The sequence counters written by `contFrames` pass `checkSeq`. -/
theorem checkSeq_contFrames (cs : List (List Nat)) :
    ∀ i, checkSeq i (contFrames i cs) = true := by
  induction cs with
  | nil => intro i; rfl
  | cons c cs ih =>
    intro i
    simp only [contFrames, checkSeq, ih, Bool.and_true]
    simp [take_four_be32]

/-- Every continuation frame of full chunks has the fixed frame size. -/
theorem contFrames_mem_length (cs : List (List Nat))
    (hc : ∀ c ∈ cs, c.length = maxPayloadPerFrame) :
    ∀ i, ∀ f ∈ contFrames i cs, f.length = frameSize := by
  induction cs with
  | nil => intro i f hf; simp [contFrames] at hf
  | cons c cs ih =>
    intro i f hf
    simp only [contFrames, List.mem_cons] at hf
    rcases hf with hf | hf
    · subst hf
      have hc0 := hc c (List.mem_cons_self _ _)
      simp [List.length_append, hc0, be32_length]
      decide
    · exact ih (fun x hx => hc x (List.mem_cons_of_mem _ hx)) (i + 1) f hf

/-- The last continuation frame wraps the last chunk. -/
theorem contFrames_getLast (cs : List (List Nat)) (c : List Nat) :
    ∀ i, cs.getLast? = some c →
      ∃ j, (contFrames i cs).getLast? = some (cmdTag :: (be32 j ++ c)) := by
  induction cs with
  | nil => intro i hx; simp at hx
  | cons x xs ih =>
    intro i hx
    cases xs with
    | nil =>
      simp at hx
      subst hx
      exact ⟨i, rfl⟩
    | cons y ys =>
      rw [List.getLast?_cons_cons] at hx
      obtain ⟨j, hj⟩ := ih (i + 1) hx
      refine ⟨j, ?_⟩
      have hstep : contFrames i (x :: y :: ys) =
          (cmdTag :: (be32 i ++ x)) :: contFrames (i + 1) (y :: ys) := rfl
      have hstep2 : contFrames (i + 1) (y :: ys) =
          (cmdTag :: (be32 (i + 1) ++ y)) :: contFrames (i + 2) ys := rfl
      rw [hstep, hstep2, List.getLast?_cons_cons, ← hstep2]
      exact hj

/-- Framing the empty payload produces no frames. -/
theorem mkFrames_nil : mkFrames [] = [] := by
  simp [mkFrames, chunkPad]

/-- A frame holding the final chunk has full size and ends in the zero
padding. -/
theorem padded_frame_spec (j z : Nat) (r : List Nat)
    (hz : r.length + z = maxPayloadPerFrame) :
    (cmdTag :: (be32 j ++ (r ++ List.replicate z 0))).length = frameSize ∧
    (cmdTag :: (be32 j ++ (r ++ List.replicate z 0))).drop (frameSize - z) =
      List.replicate z 0 := by
  have hm : maxPayloadPerFrame = 59 := by decide
  have hf : frameSize = 64 := by decide
  constructor
  · simp [List.length_append, be32_length]
    omega
  · have hfl : cmdTag :: (be32 j ++ (r ++ List.replicate z 0)) =
        (cmdTag :: (be32 j ++ r)) ++ List.replicate z 0 := by
      simp [List.append_assoc]
    have hlen : (cmdTag :: (be32 j ++ r)).length = frameSize - z := by
      simp [List.length_append, be32_length]
      omega
    rw [hfl, ← hlen, List.drop_left]

/-- Claim C4: for every payload of length up to `maxPayload`, reassembling
the frames produced by framing returns exactly the payload; framing
produces the ceiling of length over per-frame payload many frames; the
first frame carries the 4-byte total length; and the last frame is
zero-padded to the fixed frame size (full length, trailing padding zero). -/
theorem frame_roundtrip (p : List Nat) (h : p.length ≤ maxPayload) :
    reassemble (mkFrames p) = some p ∧
    (mkFrames p).length =
      (p.length + (maxPayloadPerFrame - 1)) / maxPayloadPerFrame ∧
    (∀ f0, (mkFrames p).head? = some f0 →
      (f0.drop 1).take 4 = be32 p.length) ∧
    (∀ fl, (mkFrames p).getLast? = some fl →
      fl.length = frameSize ∧
      fl.drop (frameSize - padLen p) = List.replicate (padLen p) 0) := by
  by_cases hp : p = []
  · subst hp
    rw [mkFrames_nil]
    refine ⟨rfl, by decide, ?_, ?_⟩
    · intro f0 hf0
      simp at hf0
    · intro fl hfl
      simp at hfl
  · obtain ⟨c0, rest, hchunk⟩ : ∃ c0 rest, chunkPad p = c0 :: rest := by
      cases hc : chunkPad p with
      | nil => exact absurd hc (chunkPad_ne_nil p hp)
      | cons c0 rest => exact ⟨c0, rest, rfl⟩
    have hmk : mkFrames p =
        (cmdTag :: (be32 p.length ++ c0)) :: contFrames 1 rest := by
      simp [mkFrames, hchunk]
    have hc0len : c0.length = maxPayloadPerFrame :=
      chunkPad_mem_length p c0 (by rw [hchunk]; exact List.mem_cons_self _ _)
    have hall : ∀ f ∈ (cmdTag :: (be32 p.length ++ c0)) :: contFrames 1 rest,
        f.length = frameSize := by
      intro f hf
      rcases List.mem_cons.1 hf with hf | hf
      · subst hf
        simp [List.length_append, hc0len, be32_length]
        decide
      · exact contFrames_mem_length rest (fun c hc =>
          chunkPad_mem_length p c
            (by rw [hchunk]; exact List.mem_cons_of_mem _ hc)) 1 f hf
    have hseq : checkSeq 1 (contFrames 1 rest) = true := checkSeq_contFrames rest 1
    have h32 : p.length < 2 ^ 32 := by
      have hmp : maxPayload = 2 ^ 32 - 1 := rfl
      rw [hmp] at h
      omega
    have hdec : decodeBe32 (((cmdTag :: (be32 p.length ++ c0)).drop 1).take 4) =
        p.length := by
      calc decodeBe32 (((cmdTag :: (be32 p.length ++ c0)).drop 1).take 4)
          = decodeBe32 ((be32 p.length ++ c0).take 4) := rfl
        _ = decodeBe32 (be32 p.length) := by rw [take_four_be32]
        _ = p.length := decodeBe32_be32 _ h32
    have hbody : (((cmdTag :: (be32 p.length ++ c0)) :: contFrames 1 rest).map
        (fun f => f.drop frameHeaderSize)).flatten =
        p ++ List.replicate (padLen p) 0 := by
      have hmap : ((cmdTag :: (be32 p.length ++ c0)) :: contFrames 1 rest).map
          (fun f => f.drop frameHeaderSize) = c0 :: rest := by
        rw [List.map_cons, contFrames_map_drop]
        congr 1
      rw [hmap, ← hchunk, chunkPad_flatten]
    refine ⟨?_, ?_, ?_, ?_⟩
    · rw [hmk]
      rw [reassemble]
      rw [if_pos ⟨hall, rfl, hseq⟩]
      rw [hdec, hbody]
      have hlen2 : p.length ≤ (p ++ List.replicate (padLen p) 0).length := by
        simp [List.length_append]
      rw [if_pos ⟨h, hlen2⟩]
      rw [List.take_left]
    · rw [hmk]
      simp only [List.length_cons, contFrames_length rest 1]
      have hcl := chunkPad_length p
      rw [hchunk] at hcl
      simp only [List.length_cons] at hcl
      omega
    · intro f0 hf0
      rw [hmk] at hf0
      simp only [List.head?_cons, Option.some.injEq] at hf0
      subst hf0
      calc ((cmdTag :: (be32 p.length ++ c0)).drop 1).take 4
          = (be32 p.length ++ c0).take 4 := rfl
        _ = be32 p.length := take_four_be32 _ _
    · intro fl hfl
      obtain ⟨r, hr1, hr2⟩ := chunkPad_getLast p hp
      rw [hchunk] at hr1
      cases hrest : rest with
      | nil =>
        rw [hrest] at hchunk hr1
        simp only [List.getLast?_singleton, Option.some.injEq] at hr1
        rw [hmk, hrest] at hfl
        simp only [contFrames, List.getLast?_singleton, Option.some.injEq] at hfl
        subst hfl
        rw [hr1]
        exact padded_frame_spec p.length (padLen p) r hr2
      | cons r2 rs =>
        rw [hrest] at hchunk hr1
        rw [List.getLast?_cons_cons] at hr1
        obtain ⟨j, hj⟩ := contFrames_getLast (r2 :: rs) _ 1 hr1
        rw [hmk, hrest] at hfl
        have hcf : contFrames 1 (r2 :: rs) =
            (cmdTag :: (be32 1 ++ r2)) :: contFrames 2 rs := rfl
        rw [hcf, List.getLast?_cons_cons, ← hcf, hj,
          Option.some.injEq] at hfl
        subst hfl
        exact padded_frame_spec j (padLen p) r hr2

/-- Claim C4 witness: the 3-byte payload [7, 8, 9] round-trips through
framing and reassembly. -/
theorem frame_roundtrip_witness :
    reassemble (mkFrames [7, 8, 9]) = some [7, 8, 9] ∧
    (mkFrames [7, 8, 9]).length =
      (([7, 8, 9] : List Nat).length + (maxPayloadPerFrame - 1)) /
        maxPayloadPerFrame ∧
    (∀ f0, (mkFrames [7, 8, 9]).head? = some f0 →
      (f0.drop 1).take 4 = be32 ([7, 8, 9] : List Nat).length) ∧
    (∀ fl, (mkFrames [7, 8, 9]).getLast? = some fl →
      fl.length = frameSize ∧
      fl.drop (frameSize - padLen [7, 8, 9]) =
        List.replicate (padLen [7, 8, 9]) 0) :=
  frame_roundtrip [7, 8, 9] (by decide)
